import Mathlib

set_option maxHeartbeats 1000000
set_option maxRecDepth 8000

/-!
Shallow embedding of the review change-detection and alerting engine of
this repository.  The central source file is `scripts/compare_negatives.py`;
its pure computations are translated here as executable Lean definitions,
with Python dictionaries modelled as association lists, JSON records as a
structure of optional fields, Python float arithmetic as exact rational
arithmetic, and the script's file writes as a structured trace of the
strings written.
-/

/-- Python single-character `str.replace`: every occurrence of `a` becomes `b`. -/
def replaceChar (a b : Char) (s : String) : String :=
  ⟨s.data.map (fun c => if c = a then b else c)⟩

/-- `str.replace("|", "\\|")` on a character list: each pipe becomes backslash-pipe. -/
def escPipesList : List Char → List Char
  | [] => []
  | c :: cs => if c = '|' then '\\' :: '|' :: escPipesList cs else c :: escPipesList cs

/-- `str.replace("|", "\\|")`. -/
def escPipes (s : String) : String := ⟨escPipesList s.data⟩

/-- Python `str.strip()` on a character list: drop leading and trailing whitespace. -/
def pyStripList (l : List Char) : List Char :=
  ((l.dropWhile Char.isWhitespace).reverse.dropWhile Char.isWhitespace).reverse

/-- Python `str.strip()`. -/
def pyStrip (s : String) : String := ⟨pyStripList s.data⟩

/-- `_esc_md_cell` from `compare_negatives.py`:
`s.replace("\n"," ").replace("|","\\|").strip()` (the cells passed to it are
always strings, never `None`, by construction of the row dictionaries). -/
def esc_md_cell (s : String) : String := pyStrip (escPipes (replaceChar '\n' ' ' s))

/-- One review record as read from the JSON snapshots.  `none` models a field
that is absent (or JSON `null`); where the script reads a field with a string
default, the default applies to `none`.  (The Python corner in which a `null`
category prints as the string "None" via `str(None)` is not exercised by any
claim and is collapsed into the default here.) -/
structure Row where
  category : Option String := none
  sentiment_std : Option String := none
  sentiment : Option String := none
  review : Option String := none
  app_version : Option String := none
  review_date : Option String := none
  source : Option String := none
  review_id : Option String := none
  user_name : Option String := none
  review_title : Option String := none
  rating : Option Int := none
deriving DecidableEq

/-- The fixed sentiment label table `SENTI_MAP` of `compare_negatives.py`. -/
def SENTI_MAP : List (String × String) :=
  [("negative", "Negative"), ("NEGATIVE", "Negative"), ("LABEL_0", "Negative"),
   ("neutral", "Neutral"), ("NEUTRAL", "Neutral"), ("LABEL_1", "Neutral"),
   ("positive", "Positive"), ("POSITIVE", "Positive"), ("LABEL_2", "Positive")]

/-- Python `str(x)` for an optional string: `None` prints as "None". -/
def pyStr : Option String → String
  | none => "None"
  | some s => s

/-- The Python truthiness fallback `s or ""` for an optional string. -/
def orEmpty : Option String → String
  | none => ""
  | some s => if s = "" then "" else s

/-- `canon_sent` from `compare_negatives.py`: `SENTI_MAP.get(str(s), s or "")`. -/
def canon_sent (s : Option String) : String :=
  match List.lookup (pyStr s) SENTI_MAP with
  | some v => v
  | none => orEmpty s

/-- The Python expression `r.get("sentiment_std") or r.get("sentiment")`
(falsy chaining: an absent or empty `sentiment_std` falls back to `sentiment`). -/
def sentiRaw (r : Row) : Option String :=
  match r.sentiment_std with
  | some s => if s = "" then r.sentiment else some s
  | none => r.sentiment

/-- `str(r.get("category","")).strip()` from `neg_counts`. -/
def catOf (r : Row) : String :=
  pyStrip (match r.category with | none => "" | some c => c)

/-- Whether a row is counted as Negative by `compare_negatives.py`. -/
def isNegRow (r : Row) : Bool := canon_sent (sentiRaw r) = "Negative"

/-- A Python `dict` from category to count, as an association list in
insertion order (keys are unique by construction of `bump`). -/
abbrev CountMap := List (String × Nat)

/-- `defaultdict(int)` increment `by[cat] += 1`: bump the first binding of
`k`, or append `(k, 1)` if `k` is unbound. -/
def bump (m : CountMap) (k : String) : CountMap :=
  match m with
  | [] => [(k, 1)]
  | (k', v) :: rest => if k' = k then (k', v + 1) :: rest else (k', v) :: bump rest k

/-- `neg_counts` from `compare_negatives.py`: count Negative reviews per
(stripped) category. -/
def neg_counts (rows : List Row) : CountMap :=
  rows.foldl (fun m r => if isNegRow r then bump m (catOf r) else m) []

/-- Python `d.get(c, 0)` on a count dictionary. -/
def getCount (m : CountMap) (k : String) : Nat :=
  match List.lookup k m with
  | some v => v
  | none => 0

/-- `delta = b - a`, over the integers. -/
def deltaOf (a b : Nat) : Int := (b : Int) - (a : Int)

/-- `rel = (delta / a) if a > 0 else (1.0 if b > 0 else 0.0)`; Python float
division is modelled as exact rational arithmetic. -/
def relOf (a b : Nat) : ℚ :=
  if 0 < a then ((b : ℚ) - (a : ℚ)) / (a : ℚ) else if 0 < b then 1 else 0

/-- The alert test of `compare_negatives.py` line 116:
`delta > 0 and (delta >= args.threshold_abs or rel >= args.threshold_rel)`. -/
def isExceeding (absT : Int) (relT : ℚ) (a b : Nat) : Bool :=
  decide (0 < deltaOf a b) && (decide (absT ≤ deltaOf a b) || decide (relT ≤ relOf a b))

/-- `set(cur_neg) | set(new_neg)`: the keys of either map, without duplicates. -/
def keysUnion (prev curr : CountMap) : List String :=
  (prev.map Prod.fst ++ curr.map Prod.fst).dedup

/-- Lexicographic code-point order on character lists — Python's `<` on
strings. -/
def strLtList : List Char → List Char → Bool
  | [], [] => false
  | [], _ :: _ => true
  | _ :: _, [] => false
  | a :: as, b :: bs =>
    if a.toNat < b.toNat then true
    else if b.toNat < a.toNat then false
    else strLtList as bs

/-- `a ≤ b` in Python's string order. -/
def strLe (a b : String) : Bool := !strLtList b.data a.data

/-- Insertion into a `strLe`-sorted list of strings. -/
def insertStr (x : String) : List String → List String
  | [] => [x]
  | y :: ys => if strLe x y then x :: y :: ys else y :: insertStr x ys

/-- Python `sorted(...)` on strings: ascending code-point order.  Implemented
as insertion sort; on the duplicate-free key lists it is applied to this is
extensionally the unique ascending enumeration, the same list Python's sort
returns. -/
def sortStrs (l : List String) : List String := l.foldr insertStr []

/-- `cats = sorted(set(cur_neg) | set(new_neg))`. -/
def catsOf (prev curr : CountMap) : List String :=
  sortStrs (keysUnion prev curr)

/-- The `increases` list of `compare_negatives.py` lines 111-117:
`(c, a, b, delta, rel)` tuples for the categories that pass the alert test. -/
def increases (absT : Int) (relT : ℚ) (prev curr : CountMap) :
    List (String × Nat × Nat × Int × ℚ) :=
  (catsOf prev curr).filterMap (fun c =>
    let a := getCount prev c
    let b := getCount curr c
    if isExceeding absT relT a b then some (c, a, b, deltaOf a b, relOf a b) else none)

/-- `alert = bool(increases)`. -/
def alertOf (absT : Int) (relT : ℚ) (prev curr : CountMap) : Bool :=
  !(increases absT relT prev curr).isEmpty

/-- `str(x or d)` for an optional string field read with a truthiness default. -/
def orDefault (x : Option String) (d : String) : String :=
  match x with
  | none => d
  | some s => if s = "" then d else s

/-- The review-text truncation of `compare_negatives.py`:
`txt[:200] + ("…" if len(txt) > 200 else "")`. -/
def truncReview (s : String) : String :=
  if 200 < s.data.length then (⟨s.data.take 200⟩ : String) ++ "…" else s

/-- The review-cell cleansing of `append_details_table`:
`(r.get("review") or "").replace("\r"," ").replace("\n"," ").strip()`. -/
def cleanReview (raw : Option String) : String :=
  pyStrip (replaceChar '\n' ' ' (replaceChar '\r' ' ' (orEmpty raw)))

/-- The review cell of `append_details_table`: the cleansed text truncated
at 200 characters with an ellipsis. -/
def procReview (raw : Option String) : String :=
  truncReview (cleanReview raw)

/-- Scan for a table-delimiter pipe not immediately preceded by a
backslash; `prev` is the character before the list (any non-backslash to
start a fresh cell). -/
def bareAux (prev : Char) : List Char → Bool
  | [] => false
  | c :: cs => (c == '|' && !(prev == '\\')) || bareAux c cs

/-- Whether a character list holds a pipe not escaped by an immediately
preceding backslash. -/
def hasBarePipe (l : List Char) : Bool := bareAux ' ' l

/-- One entry of the `neg` list built by `append_details_table`. -/
structure DetailCells where
  Category : String
  Review : String
  AppVersion : String
  Date : String
  Source : String
deriving DecidableEq

/-- `if only_categories and cat not in only_categories: continue` —
a `None` or empty filter set is falsy and filters nothing. -/
def skipByCat (only : Option (List String)) (cat : String) : Bool :=
  match only with
  | none => false
  | some l => !l.isEmpty && !l.contains cat

/-- The per-row filter and cell construction of `append_details_table`. -/
def detailCellsOf (only : Option (List String)) (r : Row) : Option DetailCells :=
  if !isNegRow r then none
  else
    let cat := catOf r
    if skipByCat only cat then none
    else some
      { Category := if cat = "" then "Uncategorized" else cat
        Review := procReview r.review
        AppVersion := orDefault r.app_version "Unknown"
        Date := orDefault r.review_date ""
        Source := orDefault r.source "Unknown" }

/-- The filtered `neg` list of `append_details_table`. -/
def negDetail (rows : List Row) (only : Option (List String)) : List DetailCells :=
  rows.filterMap (detailCellsOf only)

/-- One write performed by `append_details_table`, as a structured trace. -/
inductive TablePart
  | headerText
  | noRows
  | colHeader
  | sepRow
  | dataRow (line : String)
deriving DecidableEq

/-- `cols = ["Category","Review","App Version","Date"]`. -/
def colsList : List String := ["Category", "Review", "App Version", "Date"]

/-- One emitted data row:
`"| " + " | ".join(_esc_md_cell(row[c]) for c in cols) + " |"`. -/
def rowLine (c : DetailCells) : String :=
  "| " ++ String.intercalate " | "
    ([c.Category, c.Review, c.AppVersion, c.Date].map esc_md_cell) ++ " |"

/-- `append_details_table` from `compare_negatives.py`, as the trace of its
writes: fixed header text, then either the no-rows marker or the column
header, separator, and the first `maxRows` data rows. -/
def append_details_table (rows : List Row) (only : Option (List String))
    (maxRows : Nat) : List TablePart :=
  let neg := negDetail rows only
  TablePart.headerText ::
    (if neg.isEmpty then [TablePart.noRows]
     else TablePart.colHeader :: TablePart.sepRow ::
       (neg.take maxRows).map (fun c => TablePart.dataRow (rowLine c)))

/-- The text of each write of `append_details_table` (used to inspect what
the emitted report does and does not contain). -/
def partString : TablePart → String
  | .headerText => "\n\n---\n\n### Negative Review Details (latest run)\n\n"
  | .noRows => "_(no negative rows to display)_\n"
  | .colHeader => "| " ++ String.intercalate " | " colsList ++ " |\n"
  | .sepRow => "| " ++ String.intercalate " | " (colsList.map (fun _ => "---")) ++ " |\n"
  | .dataRow line => line ++ "\n"

/-- Number of data rows in an emitted table trace. -/
def dataRowCount (parts : List TablePart) : Nat :=
  (parts.filter (fun p => match p with | .dataRow _ => true | _ => false)).length

/-- `examples` from `compare_negatives.py`: the first `maxN` nonempty
(stripped, newline-collapsed, 200-truncated) Negative review texts of the
given category, as bullet lines. -/
def examplesOf (rows : List Row) (category : String) (maxN : Nat) : List String :=
  (((rows.filter (fun r => catOf r = category && isNegRow r)).filterMap (fun r =>
    let txt := replaceChar '\n' ' ' (pyStrip (orEmpty r.review))
    if txt = "" then none else some ("- " ++ truncReview txt))).take maxN)

/-- One write of the summary section of `main`, as a structured trace. -/
inductive ReportPart
  | title
  | updatedLine (b : Bool)
  | alertCondLine (absT : Int) (relT : ℚ)
  | noExceed
  | tableHead
  | increaseRow (c : String) (a b : Nat) (d : Int) (r : ℚ)
  | blank
  | sampleHeader (c : String)
  | sampleBody (lines : List String)
  | noSample
  | details (parts : List TablePart)
deriving DecidableEq

/-- `"\n".join(out) or "_no sample_"`. -/
def samplePart (lines : List String) : ReportPart :=
  if lines.isEmpty then ReportPart.noSample else ReportPart.sampleBody lines

/-- `incr_cats = {c for (c, *_rest) in increases} if increases else None`. -/
def incrCatsOf (incr : List (String × Nat × Nat × Int × ℚ)) : Option (List String) :=
  if incr.isEmpty then none else some (incr.map (·.1))

/-- The report written by `main`: summary header, the increases table with
per-category samples (or the no-exceed line), then the appended details
table filtered to the increase categories. -/
def reportOf (updated : Bool) (absT : Int) (relT : ℚ)
    (incr : List (String × Nat × Nat × Int × ℚ)) (newRows : List Row) :
    List ReportPart :=
  [ReportPart.title, ReportPart.updatedLine updated, ReportPart.alertCondLine absT relT] ++
  (if incr.isEmpty then [ReportPart.noExceed]
   else ReportPart.tableHead ::
     incr.map (fun t => ReportPart.increaseRow t.1 t.2.1 t.2.2.1 t.2.2.2.1 t.2.2.2.2) ++
     ReportPart.blank ::
     incr.flatMap (fun t =>
       [ReportPart.sampleHeader t.1, samplePart (examplesOf newRows t.1 5)])) ++
  [ReportPart.details (append_details_table newRows (incrCatsOf incr) 300)]

/-- The state of an input file on disk. -/
inductive FileState
  | missing
  | malformed
  | ok (rows : List Row)
deriving DecidableEq

/-- `load_json` from `compare_negatives.py`:
`json.load(open(path, ...)) if os.path.exists(path) else []`.
A missing file yields the empty list (fail-open); a present but unparsable
file raises, modelled as `Except.error`. -/
def load_json : FileState → Except Unit (List Row)
  | .missing => .ok []
  | .malformed => .error ()
  | .ok rows => .ok rows

/-- The value returned by `file_hash`. -/
inductive Digest
  | empty
  | sha (content : List Row)
  | shaMalformed
deriving DecidableEq

/-- `file_hash` from `compare_negatives.py`: the empty string for a missing
file, else the SHA-256 hex digest of the file's raw bytes.  Digests of
parsable files are modelled injectively on their parsed content: distinct
parses imply distinct bytes and, by collision resistance, distinct digests;
a present file's digest (a 64-character hex string) is never the empty
string.  Equal parses are modelled as equal digests, which matches the
deployment (the baseline file is the byte-identical persisted previous new
snapshot when nothing changed).  Unparsable contents are collapsed to one
digest value; no theorem below compares digests of unparsable files. -/
def file_hash : FileState → Digest
  | .missing => .empty
  | .malformed => .shaMalformed
  | .ok rows => .sha rows

/-- The outputs of one run of `main`. -/
structure RunOutput where
  updated : Bool
  alert : Bool
  incr : List (String × Nat × Nat × Int × ℚ)
  report : List ReportPart
deriving DecidableEq

instance : Inhabited RunOutput := ⟨⟨false, false, [], []⟩⟩

/-- The pure content of `main` from `compare_negatives.py`: load both files
(propagating a parse failure, before anything is written), compare file
hashes for `updated`, compute the per-category increases and `alert`, and
write the report.  A successful result models a completed run with the
report written; an error models the uncaught exception, with no report. -/
def run (cur new : FileState) (absT : Int) (relT : ℚ) : Except Unit RunOutput :=
  match load_json cur with
  | .error e => .error e
  | .ok curRows =>
    match load_json new with
    | .error e => .error e
    | .ok newRows =>
      let updated := decide (¬ file_hash cur = file_hash new)
      let incr := increases absT relT (neg_counts curRows) (neg_counts newRows)
      .ok { updated := updated, alert := !incr.isEmpty, incr := incr,
            report := reportOf updated absT relT incr newRows }

/-- Modelled from the spec (§4.2): whitespace normalization used in the UID
signature.  The repository has no Identity Resolver source under `src/`; the
definitions through `new_only` are built from the spec's words. -/
def normWs (s : String) : String :=
  String.intercalate " " ((s.split Char.isWhitespace).filter (fun w => w ≠ ""))

/-- Modelled from the spec (§4.2): stands in for the SHA-256 digest of the
signature; the claims proved about it rely only on it being a deterministic
total function of its input. -/
def digestNat (l : List Char) : Nat :=
  l.foldl (fun h c => (h * 131 + c.toNat) % (2 ^ 64)) 5381

/-- Fixed-radix hex rendering of the modelled digest. -/
def toHexFixed (n : Nat) : String := ⟨Nat.toDigits 16 n⟩

/-- A missing rating contributes the empty string to the signature. -/
def ratingField : Option Int → String
  | none => ""
  | some n => toString n

/-- Modelled from the spec (§4.2): the canonical, whitespace-normalized
concatenation of source, user name, title, rating, review date, app version,
and the review text truncated to a fixed prefix length (512 here); missing
or malformed sub-fields contribute empty strings. -/
def sigOf (r : Row) : String :=
  String.intercalate "\x1f"
    ([orEmpty r.source, orEmpty r.user_name, orEmpty r.review_title,
      ratingField r.rating, orEmpty r.review_date, orEmpty r.app_version,
      (⟨(orEmpty r.review).data.take 512⟩ : String)].map normWs)

/-- Modelled from the spec (§4.2): UID = `<source-tag>:<native id>` when the
record carries a (nonempty) native store identifier — the source string
serves as the tag — else `hash:` followed by the digest of the signature. -/
def resolve_uid (r : Row) : String :=
  match r.review_id with
  | some nid =>
      if nid = "" then "hash:" ++ toHexFixed (digestNat (sigOf r).data)
      else orEmpty r.source ++ ":" ++ nid
  | none => "hash:" ++ toHexFixed (digestNat (sigOf r).data)

/-- Modelled from the spec (§4.3): `NewOnly` — the records of the new
snapshot whose UID is not present among the baseline UIDs, in order. -/
def new_only (baseRows newRows : List Row) : List Row :=
  newRows.filter (fun r => !((baseRows.map resolve_uid).contains (resolve_uid r)))

/-- A Google Play negative record in category Payments. -/
def rowGP : Row :=
  { category := some "Payments", source := some "Google Play",
    app_version := some "1.0", sentiment_std := some "Negative" }

/-- An App Store negative record in the same category, different source and
version. -/
def rowAS : Row :=
  { category := some "Payments", source := some "App Store",
    app_version := some "2.0", sentiment_std := some "Negative" }

/-- Whether the two input files hold the same parsed content: both missing,
or both present and parsing to the same records — under the digest model of
`file_hash`, exactly when the two digests coincide. -/
def sameContent : FileState → FileState → Bool
  | .missing, .missing => true
  | .ok a, .ok b => decide (a = b)
  | _, _ => false

/-- The output of a successful run (and `default` for a failed one). -/
def runOut (cur new : FileState) (absT : Int) (relT : ℚ) : RunOutput :=
  match run cur new absT relT with
  | .ok o => o
  | .error _ => default

/-- A positive-sentiment record (contributing to no negative count). -/
def posRow : Row :=
  { category := some "UI", sentiment_std := some "Positive", review := some "nice" }

/-- A negative record in category Payments. -/
def negRow : Row :=
  { category := some "Payments", sentiment_std := some "Negative", review := some "bad" }

/-- The one-record input of the C7 counterexample: every field digit-free. -/
def rowsC7 : List Row :=
  [{ category := some "Payments", sentiment_std := some "Negative",
     review := some "bad app" }]

/-- The record of the C9 counterexample: a carriage return inside the
category value. -/
def rowCR : Row :=
  { category := some "A\rB", sentiment_std := some "Negative", review := some "ok" }

/-- A 300-character review text for the C9 witness. -/
def longReview : String := ⟨List.replicate 300 'x'⟩

theorem filterMapIf {α β : Type} (p : α → Bool) (g : α → β) (l : List α) :
    (l.filterMap fun c => if p c then some (g c) else none) = (l.filter p).map g := by
  induction l with
  | nil => rfl
  | cons c cs ih =>
    by_cases h : p c <;> simp [List.filterMap_cons, List.filter_cons, h, ih]

theorem mem_insertStr {x y : String} {l : List String} :
    y ∈ insertStr x l ↔ y = x ∨ y ∈ l := by
  induction l with
  | nil => simp [insertStr]
  | cons z zs ih =>
    by_cases h : strLe x z <;> simp [insertStr, h, ih] <;> tauto

theorem mem_sortStrs {x : String} {l : List String} : x ∈ sortStrs l ↔ x ∈ l := by
  induction l with
  | nil => simp [sortStrs]
  | cons y ys ih =>
    show x ∈ insertStr y (sortStrs ys) ↔ _
    rw [mem_insertStr, ih]
    simp

theorem increases_eq (absT : Int) (relT : ℚ) (prev curr : CountMap) :
    increases absT relT prev curr =
      ((catsOf prev curr).filter
          (fun c => isExceeding absT relT (getCount prev c) (getCount curr c))).map
        (fun c => (c, getCount prev c, getCount curr c,
          deltaOf (getCount prev c) (getCount curr c),
          relOf (getCount prev c) (getCount curr c))) := by
  unfold increases
  exact filterMapIf _ _ _

theorem mem_increases_iff {absT : Int} {relT : ℚ} {prev curr : CountMap} {k : String} :
    k ∈ (increases absT relT prev curr).map (·.1) ↔
      k ∈ keysUnion prev curr ∧
        isExceeding absT relT (getCount prev k) (getCount curr k) = true := by
  rw [increases_eq]
  simp only [List.mem_map, List.mem_filter, catsOf, mem_sortStrs]
  constructor
  · rintro ⟨t, ⟨c, ⟨hc, hp⟩, rfl⟩, rfl⟩
    exact ⟨hc, hp⟩
  · rintro ⟨hk, hp⟩
    exact ⟨_, ⟨k, ⟨hk, hp⟩, rfl⟩, rfl⟩

theorem isExceeding_iff {absT : Int} {relT : ℚ} {a b : Nat} :
    isExceeding absT relT a b = true ↔
      0 < deltaOf a b ∧ (absT ≤ deltaOf a b ∨ relT ≤ relOf a b) := by
  simp [isExceeding]

/-- C1: for every pair of slice-count maps `prev` and `curr` and every key of
their union, the key is reported in `increases` if and only if
`delta = curr[key] - prev[key] > 0` and (`delta ≥ abs_threshold` or
`rel ≥ rel_threshold`), where `rel = delta / prev[key]` when `prev[key] > 0`
and otherwise `1` exactly when `delta > 0` (so `prev=0, curr=0` gives
`rel = 0`, not exceeding, and `prev=0, curr=2` gives `rel = 1`); the alert
signal is true iff at least one key of the union is exceeding. -/
theorem threshold_engine_correct (prev curr : CountMap) (absT : Int) (relT : ℚ)
    (k : String) (hk : k ∈ keysUnion prev curr) :
    (k ∈ (increases absT relT prev curr).map (·.1) ↔
      (0 < deltaOf (getCount prev k) (getCount curr k) ∧
        (absT ≤ deltaOf (getCount prev k) (getCount curr k) ∨
          relT ≤ relOf (getCount prev k) (getCount curr k)))) ∧
    (∀ b : Nat, relOf 0 b = if 0 < deltaOf 0 b then 1 else 0) ∧
    relOf 0 0 = 0 ∧ relOf 0 2 = 1 ∧
    (alertOf absT relT prev curr = true ↔
      ∃ c ∈ keysUnion prev curr,
        isExceeding absT relT (getCount prev c) (getCount curr c) = true) := by
  refine ⟨?_, ?_, rfl, rfl, ?_⟩
  · rw [mem_increases_iff, isExceeding_iff]
    simp [hk]
  · intro b
    simp only [relOf, deltaOf]
    norm_num
  · unfold alertOf
    rw [increases_eq]
    rw [Bool.not_eq_true']
    rw [List.isEmpty_eq_false_iff_exists_mem]
    simp only [List.mem_map, List.mem_filter, catsOf, mem_sortStrs]
    constructor
    · rintro ⟨t, c, ⟨hc, hp⟩, rfl⟩
      exact ⟨c, hc, hp⟩
    · rintro ⟨c, hc, hp⟩
      exact ⟨_, c, ⟨hc, hp⟩, rfl⟩

/-- C1 witness: with `prev = {}`, `curr = {Payments: 5}`, `abs = 3`,
`rel = 1`, the key Payments is in the union and is reported as exceeding. -/
theorem threshold_engine_correct_witness :
    ("Payments" ∈ keysUnion [] [("Payments", 5)]) ∧
    ("Payments" ∈ (increases 3 1 [] [("Payments", 5)]).map (·.1)) :=
  ⟨by decide,
   ((threshold_engine_correct [] [("Payments", 5)] 3 1 "Payments" (by decide)).1).mpr
     (by decide)⟩

/-- C6: for fixed maps and `rel_threshold`, if `a1 ≤ a2` then every slice
exceeding at `abs_threshold = a2` also exceeds at `abs_threshold = a1`:
raising the absolute threshold never adds a slice to the exceeding set. -/
theorem abs_threshold_monotone (prev curr : CountMap) (relT : ℚ) (a1 a2 : Int)
    (h12 : a1 ≤ a2) (k : String)
    (hk : k ∈ (increases a2 relT prev curr).map (·.1)) :
    k ∈ (increases a1 relT prev curr).map (·.1) := by
  rw [mem_increases_iff] at hk ⊢
  rcases hk with ⟨hu, hp⟩
  rcases isExceeding_iff.mp hp with ⟨hd, habs | hrel⟩
  · exact ⟨hu, isExceeding_iff.mpr ⟨hd, Or.inl (le_trans h12 habs)⟩⟩
  · exact ⟨hu, isExceeding_iff.mpr ⟨hd, Or.inr hrel⟩⟩

/-- C6 witness: lowering the threshold from 3 to 2 keeps Payments exceeding. -/
theorem abs_threshold_monotone_witness :
    ((2 : Int) ≤ 3) ∧ "Payments" ∈ (increases 2 1 [] [("Payments", 5)]).map (·.1) :=
  ⟨by decide,
   abs_threshold_monotone [] [("Payments", 5)] 1 2 3 (by decide) "Payments" (by decide)⟩

theorem getCount_nil (k : String) : getCount [] k = 0 := rfl

theorem getCount_cons (k' : String) (v : Nat) (m : CountMap) (k : String) :
    getCount ((k', v) :: m) k = if k = k' then v else getCount m k := by
  by_cases h : k = k'
  · simp [getCount, List.lookup, h]
  · have hb : (k == k') = false := beq_eq_false_iff_ne.mpr h
    simp [getCount, List.lookup, hb, h]

theorem getCount_bump (m : CountMap) (k0 k : String) :
    getCount (bump m k0) k = getCount m k + (if k = k0 then 1 else 0) := by
  induction m with
  | nil =>
    show getCount [(k0, 1)] k = getCount [] k + _
    rw [getCount_cons, getCount_nil]
    by_cases h : k = k0 <;> simp [h]
  | cons p rest ih =>
    obtain ⟨k', v⟩ := p
    show getCount (if k' = k0 then (k', v + 1) :: rest else (k', v) :: bump rest k0) k = _
    by_cases h1 : k' = k0
    · subst h1
      rw [if_pos rfl, getCount_cons, getCount_cons]
      by_cases h2 : k = k' <;> simp [h2]
    · rw [if_neg h1, getCount_cons, getCount_cons, ih]
      by_cases h2 : k = k'
      · have hk0 : ¬ k = k0 := fun h => h1 (h2.symm.trans h)
        simp [h2, hk0, h1]
      · simp [h2]

theorem neg_counts_foldl (rows : List Row) (m : CountMap) (k : String) :
    getCount (rows.foldl (fun m r => if isNegRow r then bump m (catOf r) else m) m) k =
      getCount m k + (rows.filter (fun r => isNegRow r && catOf r == k)).length := by
  induction rows generalizing m with
  | nil => simp
  | cons r rs ih =>
    rw [List.foldl_cons, List.filter_cons]
    by_cases hn : isNegRow r
    · simp only [hn, if_true]
      rw [ih, getCount_bump]
      by_cases hc : catOf r = k
      · have hb : (catOf r == k) = true := beq_iff_eq.mpr hc
        have hk : k = catOf r := hc.symm
        simp [hb, hk] <;> omega
      · have hb : (catOf r == k) = false := beq_eq_false_iff_ne.mpr hc
        have hk : ¬ k = catOf r := fun h => hc h.symm
        simp [hb, hk]
    · have hb : isNegRow r = false := by simpa using hn
      simp [hb, ih]

/-- C4 amended: the slice aggregator keys by the stripped category string
alone — for every collection and every key, the key's count is the number of
Negative records with exactly that (stripped) category, regardless of their
source or app_version. -/
theorem neg_counts_by_category (rows : List Row) (k : String) :
    getCount (neg_counts rows) k =
      (rows.filter (fun r => isNegRow r && catOf r == k)).length := by
  have h := neg_counts_foldl rows [] k
  simpa [neg_counts, getCount_nil] using h

/-- C4 counterexample: two negative records agreeing on category but
differing in source and app_version are counted under one single key — the
aggregator's mapping has category-string keys, not
(source, app_version, category) triples. -/
theorem neg_counts_single_key_counterexample :
    neg_counts [rowGP, rowAS] = [("Payments", 2)] ∧
    (neg_counts [rowGP, rowAS]).length = 1 ∧ rowGP.source ≠ rowAS.source :=
  ⟨by decide, by decide, by decide⟩

/-- C8 counterexample: "nEgative" is a natural-language sentiment label up
to case, yet `canon_sent` returns it unchanged — the table lookup is
exact-match, not case-insensitive — and the result lies outside
{Negative, Neutral, Positive}. -/
theorem canon_sent_case_counterexample :
    "nEgative".data.map Char.toLower = "negative".data ∧
    canon_sent (some "nEgative") = "nEgative" ∧
    "nEgative" ≠ "Negative" ∧ "nEgative" ≠ "Neutral" ∧ "nEgative" ≠ "Positive" :=
  ⟨by decide, by decide, by decide, by decide, by decide⟩

/-- C8 amended: `canon_sent` maps each of the nine exact-match table labels
(lower-case and upper-case natural labels plus the positional placeholders)
onto exactly {Negative, Neutral, Positive} — every canonical value is hit —
any string absent from the table, including other casings, is returned
unchanged, and the function is total (never fails). -/
theorem canon_sent_exact_table :
    (∀ k v : String, (k, v) ∈ SENTI_MAP →
      canon_sent (some k) = v ∧ (v = "Negative" ∨ v = "Neutral" ∨ v = "Positive")) ∧
    (∀ v : String, (v = "Negative" ∨ v = "Neutral" ∨ v = "Positive") →
      ∃ k, (k, v) ∈ SENTI_MAP) ∧
    (∀ s : String, List.lookup s SENTI_MAP = none → canon_sent (some s) = s) := by
  refine ⟨?_, ?_, ?_⟩
  · intro k v h
    fin_cases h <;> exact ⟨by decide, by decide⟩
  · rintro v (rfl | rfl | rfl)
    · exact ⟨"negative", by decide⟩
    · exact ⟨"neutral", by decide⟩
    · exact ⟨"positive", by decide⟩
  · intro s h
    unfold canon_sent
    rw [show pyStr (some s) = s from rfl, h]
    show orEmpty (some s) = s
    unfold orEmpty
    by_cases hs : s = ""
    · simp [hs]
    · simp [hs]

/-- C8 witness: a placeholder label is mapped into the canonical set, and an
unmapped label passes through unchanged. -/
theorem canon_sent_exact_table_witness :
    canon_sent (some "LABEL_0") = "Negative" ∧ canon_sent (some "weird") = "weird" :=
  ⟨(canon_sent_exact_table.1 "LABEL_0" "Negative" (by decide)).1,
   canon_sent_exact_table.2.2 "weird" (by decide)⟩

/-- C5 (Identity Resolver modelled from the spec, §4.2): resolving a UID is
deterministic — equal records yield equal UIDs across runs — it never fails
(every record gets either a native-id UID or a hash-prefixed digest UID),
and missing sub-fields enter the hashed signature exactly as empty strings. -/
theorem resolve_uid_idempotent_total :
    (∀ r s : Row, r = s → resolve_uid r = resolve_uid s) ∧
    (∀ r : Row,
      (∃ nid, r.review_id = some nid ∧ nid ≠ "" ∧
        resolve_uid r = orEmpty r.source ++ ":" ++ nid) ∨
      resolve_uid r = "hash:" ++ toHexFixed (digestNat (sigOf r).data)) ∧
    (∀ r : Row,
      sigOf { r with user_name := none } = sigOf { r with user_name := some "" } ∧
      sigOf { r with review_title := none } = sigOf { r with review_title := some "" } ∧
      sigOf { r with review_date := none } = sigOf { r with review_date := some "" } ∧
      sigOf { r with app_version := none } = sigOf { r with app_version := some "" } ∧
      sigOf { r with review := none } = sigOf { r with review := some "" } ∧
      sigOf { r with source := none } = sigOf { r with source := some "" }) := by
  refine ⟨fun r s h => by rw [h], ?_, ?_⟩
  · intro r
    rcases hid : r.review_id with _ | nid
    · right
      simp [resolve_uid, hid]
    · by_cases hn : nid = ""
      · right
        simp [resolve_uid, hid, hn]
      · left
        exact ⟨nid, rfl, hn, by simp [resolve_uid, hid, hn]⟩
  · intro r
    refine ⟨rfl, rfl, rfl, rfl, rfl, rfl⟩

/-- C5 witness: the determinism part applied to a concrete record. -/
theorem resolve_uid_idempotent_total_witness :
    resolve_uid { category := some "Payments" } =
      resolve_uid { category := some "Payments" } :=
  resolve_uid_idempotent_total.1 _ _ rfl

theorem isExceeding_self (absT : Int) (relT : ℚ) (a : Nat) :
    isExceeding absT relT a a = false := by
  simp [isExceeding, deltaOf]

theorem increases_self_nil (absT : Int) (relT : ℚ) (m : CountMap) :
    increases absT relT m m = [] := by
  rw [increases_eq]
  have hall : ∀ c ∈ catsOf m m,
      ¬ (isExceeding absT relT (getCount m c) (getCount m c) = true) := by
    intro c _
    simp [isExceeding_self]
  rw [List.filter_eq_nil_iff.mpr hall]
  rfl

/-- C3 counterexample: a missing new-snapshot file is not fatal — `load_json`
returns the empty list and the run completes, producing a report. -/
theorem missing_new_snapshot_not_fatal :
    load_json FileState.missing = Except.ok [] ∧
    run (FileState.ok []) FileState.missing 3 (1/5) =
      Except.ok (runOut (FileState.ok []) FileState.missing 3 (1/5)) ∧
    (runOut (FileState.ok []) FileState.missing 3 (1/5)).report ≠ [] :=
  ⟨rfl, rfl, by decide⟩

/-- C3 amended: the new-snapshot error policy of the code — a present but
unparsable new snapshot is fatal, erroring before any output is produced,
while a missing new snapshot is fail-open: it is read as the empty list and
the run completes with a report. -/
theorem new_snapshot_error_policy :
    (∀ rows absT relT, run (FileState.ok rows) FileState.malformed absT relT =
      Except.error ()) ∧
    (∀ absT relT, run FileState.missing FileState.malformed absT relT =
      Except.error ()) ∧
    (∀ rows absT relT, run (FileState.ok rows) FileState.missing absT relT =
      Except.ok (runOut (FileState.ok rows) FileState.missing absT relT)) :=
  ⟨fun _ _ _ => rfl, fun _ _ => rfl, fun _ _ _ => rfl⟩

/-- C2 amended: on every successful run, `updated` is true exactly when the
two input files' contents differ (equivalently, their SHA-256 digests
differ; a missing file has the empty digest) — a file-content signal. -/
theorem updated_iff_content_changed (cur new : FileState) (absT : Int) (relT : ℚ)
    (out : RunOutput) (h : run cur new absT relT = Except.ok out) :
    (out.updated = true ↔ sameContent cur new = false) := by
  cases cur with
  | malformed => simp [run, load_json] at h
  | missing =>
    cases new with
    | malformed => simp [run, load_json] at h
    | missing =>
      simp only [run, load_json, Except.ok.injEq] at h
      subst h
      simp [sameContent, file_hash]
    | ok r =>
      simp only [run, load_json, Except.ok.injEq] at h
      subst h
      simp [sameContent, file_hash]
  | ok r1 =>
    cases new with
    | malformed => simp [run, load_json] at h
    | missing =>
      simp only [run, load_json, Except.ok.injEq] at h
      subst h
      simp [sameContent, file_hash]
    | ok r2 =>
      simp only [run, load_json, Except.ok.injEq] at h
      subst h
      simp [sameContent, file_hash]

/-- C2 amended witness: identical parsed inputs give `updated = false` on a
successful run. -/
theorem updated_iff_content_changed_witness :
    ((runOut (FileState.ok []) (FileState.ok []) 3 1).updated = true ↔
      sameContent (FileState.ok []) (FileState.ok []) = false) :=
  updated_iff_content_changed _ _ 3 1 _ rfl

/-- C2 counterexample: baseline holds one positive record, the new snapshot
file is missing.  The run succeeds with `updated = true`, although `NewOnly`
is empty and every slice count is unchanged — `updated` is a file-content
signal, not the semantic "dataset changed" predicate the claim states. -/
theorem updated_claim_counterexample :
    run (FileState.ok [posRow]) FileState.missing 3 1 =
      Except.ok (runOut (FileState.ok [posRow]) FileState.missing 3 1) ∧
    (runOut (FileState.ok [posRow]) FileState.missing 3 1).updated = true ∧
    new_only [posRow] [] = [] ∧
    neg_counts [posRow] = neg_counts [] :=
  ⟨rfl, by decide, rfl, by decide⟩

/-- C10: on every run on which both inputs parse, if the emitted alert
signal is true then the emitted updated signal is true as well — an alert is
never raised on a run whose inputs are reported unchanged. -/
theorem alert_implies_updated (cur new : FileState) (absT : Int) (relT : ℚ)
    (out : RunOutput) (h : run cur new absT relT = Except.ok out)
    (ha : out.alert = true) : out.updated = true := by
  cases cur with
  | malformed => simp [run, load_json] at h
  | missing =>
    cases new with
    | malformed => simp [run, load_json] at h
    | missing =>
      simp only [run, load_json, Except.ok.injEq] at h
      subst h
      exact absurd ha (by simp [increases_self_nil])
    | ok r =>
      simp only [run, load_json, Except.ok.injEq] at h
      subst h
      simp [file_hash]
  | ok r1 =>
    cases new with
    | malformed => simp [run, load_json] at h
    | missing =>
      simp only [run, load_json, Except.ok.injEq] at h
      subst h
      simp [file_hash]
    | ok r2 =>
      simp only [run, load_json, Except.ok.injEq] at h
      subst h
      by_cases hr : r1 = r2
      · subst hr
        exact absurd ha (by simp [increases_self_nil])
      · simp [file_hash, hr]

/-- C10 witness: a run whose alert fires (one new negative in a fresh
category) also reports updated. -/
theorem alert_implies_updated_witness :
    (runOut (FileState.ok []) (FileState.ok [negRow]) 3 1).alert = true ∧
    (runOut (FileState.ok []) (FileState.ok [negRow]) 3 1).updated = true :=
  ⟨by decide,
   alert_implies_updated (FileState.ok []) (FileState.ok [negRow]) 3 1
     (runOut (FileState.ok []) (FileState.ok [negRow]) 3 1) rfl (by decide)⟩

theorem dataRowCount_nondata (x : TablePart) (parts : List TablePart)
    (hx : (match x with | TablePart.dataRow _ => true | _ => false) = false) :
    dataRowCount (x :: parts) = dataRowCount parts := by
  simp [dataRowCount, List.filter_cons, hx]

theorem dataRowCount_map_rowLine (l : List DetailCells) :
    dataRowCount (l.map (fun c => TablePart.dataRow (rowLine c))) = l.length := by
  induction l with
  | nil => rfl
  | cons c cs ih =>
    simp only [List.map_cons]
    simp [dataRowCount, List.filter_cons] at ih ⊢
    exact ih

/-- C7 amended: the rendered detail table contains exactly
`min(n, max_rows)` data rows, where `n` is the number of negative records
passing the category filter — rows beyond the cap are silently omitted, not
an error — but the emitted text states no count of the uncapped total (see
the counterexample). -/
theorem details_row_cap (rows : List Row) (only : Option (List String))
    (maxRows : Nat) :
    dataRowCount (append_details_table rows only maxRows) =
      min (negDetail rows only).length maxRows := by
  show dataRowCount (TablePart.headerText ::
      (if (negDetail rows only).isEmpty then [TablePart.noRows]
       else TablePart.colHeader :: TablePart.sepRow ::
         ((negDetail rows only).take maxRows).map
           (fun c => TablePart.dataRow (rowLine c)))) = _
  rw [dataRowCount_nondata _ _ rfl]
  by_cases h : (negDetail rows only).isEmpty
  · rw [if_pos h]
    have h0 : (negDetail rows only).length = 0 := by
      rw [List.isEmpty_iff.mp h]
      rfl
    rw [h0]
    simp [dataRowCount]
  · rw [if_neg h]
    rw [dataRowCount_nondata _ _ rfl, dataRowCount_nondata _ _ rfl,
      dataRowCount_map_rowLine, List.length_take]
    exact Nat.min_comm _ _

/-- C7 counterexample: for one negative record (true uncapped total 1) the
emitted table holds exactly one data row, yet not a single character of the
emitted text is a digit — the renderer states no header count of the total
anywhere, refuting the claim that the header count states the true total. -/
theorem details_no_total_counterexample :
    dataRowCount (append_details_table rowsC7 none 300) = 1 ∧
    ((append_details_table rowsC7 none 300).map partString).all
      (fun s => s.data.all (fun c => !c.isDigit)) = true :=
  ⟨by decide, by decide⟩

theorem mem_replaceList (x y a : Char) (l : List Char)
    (h : a ∈ l.map (fun c => if c = x then y else c)) : a = y ∨ a ∈ l := by
  rcases List.mem_map.mp h with ⟨c, hc, he⟩
  by_cases h1 : c = x
  · rw [if_pos h1] at he
    exact Or.inl he.symm
  · rw [if_neg h1] at he
    exact Or.inr (he ▸ hc)

theorem replace_removes (x y : Char) (hxy : ¬ y = x) (l : List Char) :
    x ∉ l.map (fun c => if c = x then y else c) := by
  intro h
  rcases List.mem_map.mp h with ⟨c, _, he⟩
  by_cases h1 : c = x
  · rw [if_pos h1] at he
    exact hxy he
  · rw [if_neg h1] at he
    exact h1 he

theorem mem_pyStripList {c : Char} {l : List Char} (h : c ∈ pyStripList l) :
    c ∈ l := by
  unfold pyStripList at h
  rw [List.mem_reverse] at h
  have h2 : c ∈ (l.dropWhile Char.isWhitespace).reverse :=
    (List.dropWhile_sublist _).subset h
  rw [List.mem_reverse] at h2
  exact (List.dropWhile_sublist _).subset h2

theorem mem_escPipesList {c : Char} {l : List Char} (h : c ∈ escPipesList l) :
    c = '\\' ∨ c ∈ l := by
  induction l with
  | nil => simp [escPipesList] at h
  | cons d ds ih =>
    by_cases hd : d = '|'
    · subst hd
      simp only [escPipesList, if_pos rfl] at h
      cases h with
      | head => exact Or.inl rfl
      | tail _ h2 =>
        cases h2 with
        | head => exact Or.inr (List.mem_cons_self _ _)
        | tail _ h4 =>
          cases ih h4 with
          | inl h5 => exact Or.inl h5
          | inr h6 => exact Or.inr (List.mem_cons_of_mem _ h6)
    · simp only [escPipesList, if_neg hd] at h
      cases h with
      | head => exact Or.inr (List.mem_cons_self _ _)
      | tail _ h2 =>
        cases ih h2 with
        | inl h3 => exact Or.inl h3
        | inr h4 => exact Or.inr (List.mem_cons_of_mem _ h4)

theorem bareAux_escPipes (l : List Char) (p : Char) :
    bareAux p (escPipesList l) = false := by
  induction l generalizing p with
  | nil => rfl
  | cons c cs ih =>
    by_cases h : c = '|'
    · subst h
      have e1 : ('\\' == '|') = false := by decide
      have e2 : ('|' == '|') = true := by decide
      have e3 : ('\\' == '\\') = true := by decide
      simp [escPipesList, bareAux, e1, e2, e3, ih]
    · have hc : (c == '|') = false := beq_eq_false_iff_ne.mpr h
      simp [escPipesList, h, bareAux, hc, ih]

theorem bareAux_congr (l : List Char) {p q : Char} (hp : ¬ p = '\\')
    (hq : ¬ q = '\\') : bareAux p l = bareAux q l := by
  cases l with
  | nil => rfl
  | cons c cs =>
    have hp' : (p == '\\') = false := beq_eq_false_iff_ne.mpr hp
    have hq' : (q == '\\') = false := beq_eq_false_iff_ne.mpr hq
    simp [bareAux, hp', hq']

theorem bareAux_dropWhile (l : List Char) (p : Char) (hp : ¬ p = '\\')
    (h : bareAux p l = false) :
    bareAux p (l.dropWhile Char.isWhitespace) = false := by
  induction l generalizing p with
  | nil => simpa using h
  | cons c cs ih =>
    simp only [bareAux, Bool.or_eq_false_iff] at h
    by_cases hw : Char.isWhitespace c
    · rw [List.dropWhile_cons, if_pos hw]
      have hc : ¬ c = '\\' := by
        intro hc
        subst hc
        exact absurd hw (by decide)
      have h2 : bareAux p cs = false := by
        rw [bareAux_congr cs hp hc]
        exact h.2
      exact ih p hp h2
    · rw [List.dropWhile_cons, if_neg hw]
      simp [bareAux, h.1, h.2]

theorem bareAux_take (l : List Char) : ∀ (p : Char) (n : Nat),
    bareAux p l = false → bareAux p (l.take n) = false := by
  induction l with
  | nil =>
    intro p n h
    simpa using h
  | cons c cs ih =>
    intro p n h
    cases n with
    | zero => rfl
    | succ n =>
      simp only [List.take_succ_cons, bareAux, Bool.or_eq_false_iff] at h ⊢
      exact ⟨h.1, ih c n h.2⟩

theorem bareAux_pyStrip (l : List Char) (h : bareAux ' ' l = false) :
    bareAux ' ' (pyStripList l) = false := by
  have h1 : bareAux ' ' (l.dropWhile Char.isWhitespace) = false :=
    bareAux_dropWhile l ' ' (by decide) h
  have hpre : pyStripList l <+: l.dropWhile Char.isWhitespace := by
    show List.rdropWhile Char.isWhitespace (l.dropWhile Char.isWhitespace) <+: _
    exact List.rdropWhile_prefix _ _
  obtain ⟨t, ht⟩ := hpre
  have heq : pyStripList l =
      (l.dropWhile Char.isWhitespace).take (pyStripList l).length := by
    rw [← ht, List.take_left]
  rw [heq]
  exact bareAux_take _ _ _ h1

theorem no_cr_cleanReview (raw : Option String) : '\r' ∉ (cleanReview raw).data := by
  intro h
  have h1 := mem_pyStripList h
  rcases mem_replaceList '\n' ' ' '\r' _ h1 with h2 | h2
  · exact absurd h2 (by decide)
  · exact replace_removes '\r' ' ' (by decide) _ h2

theorem no_nl_cleanReview (raw : Option String) : '\n' ∉ (cleanReview raw).data := by
  intro h
  have h1 := mem_pyStripList h
  exact replace_removes '\n' ' ' (by decide) _ h1

theorem mem_truncReview {c : Char} {s : String} (h : c ∈ (truncReview s).data) :
    c ∈ s.data ∨ c = '…' := by
  unfold truncReview at h
  by_cases h2 : 200 < s.data.length
  · rw [if_pos h2] at h
    have h3 : c ∈ s.data.take 200 ++ ['…'] := h
    rcases List.mem_append.mp h3 with h4 | h4
    · exact Or.inl (List.take_subset _ _ h4)
    · simp at h4
      exact Or.inr h4
  · rw [if_neg h2] at h
    exact Or.inl h

theorem no_cr_procReview (raw : Option String) : '\r' ∉ (procReview raw).data := by
  intro h
  rcases mem_truncReview h with h1 | h1
  · exact no_cr_cleanReview raw h1
  · exact absurd h1 (by decide)

theorem no_nl_procReview (raw : Option String) : '\n' ∉ (procReview raw).data := by
  intro h
  rcases mem_truncReview h with h1 | h1
  · exact no_nl_cleanReview raw h1
  · exact absurd h1 (by decide)

theorem truncReview_long {s : String} (h : 200 < s.data.length) :
    (truncReview s).data.length = 201 ∧
      (truncReview s).data.getLast? = some '…' := by
  unfold truncReview
  rw [if_pos h]
  constructor
  · show (s.data.take 200 ++ ['…']).length = 201
    rw [List.length_append, List.length_take]
    show min 200 s.data.length + 1 = 201
    omega
  · show (s.data.take 200 ++ ['…']).getLast? = some '…'
    rw [List.getLast?_concat]

theorem truncReview_short {s : String} (h : s.data.length ≤ 200) :
    truncReview s = s := by
  unfold truncReview
  rw [if_neg (by omega)]

theorem no_nl_esc_md_cell (s : String) : '\n' ∉ (esc_md_cell s).data := by
  intro h
  have h1 := mem_pyStripList h
  rcases mem_escPipesList h1 with h2 | h2
  · exact absurd h2 (by decide)
  · exact replace_removes '\n' ' ' (by decide) _ h2

theorem no_bare_pipe_esc_md_cell (s : String) :
    hasBarePipe (esc_md_cell s).data = false := by
  show bareAux ' '
    (pyStripList (escPipesList (s.data.map (fun c => if c = '\n' then ' ' else c)))) = false
  exact bareAux_pyStrip _ (bareAux_escPipes _ _)

/-- C9 amended: every cell is passed through `esc_md_cell`, which collapses
each newline to a single space and leaves no table-delimiter pipe unescaped;
the review-text cell is additionally cleansed of carriage returns and
newlines and truncated at 200 characters with an ellipsis marker appended;
carriage returns in cells other than the review text are not collapsed
(see the counterexample). -/
theorem esc_md_cell_spec :
    (∀ s : String, '\n' ∉ (esc_md_cell s).data ∧
      hasBarePipe (esc_md_cell s).data = false) ∧
    (∀ raw : Option String, '\r' ∉ (procReview raw).data ∧
      '\n' ∉ (procReview raw).data) ∧
    (∀ raw : Option String,
      (200 < (cleanReview raw).data.length →
        (procReview raw).data.length = 201 ∧
          (procReview raw).data.getLast? = some '…') ∧
      ((cleanReview raw).data.length ≤ 200 →
        procReview raw = cleanReview raw)) :=
  ⟨fun s => ⟨no_nl_esc_md_cell s, no_bare_pipe_esc_md_cell s⟩,
   fun raw => ⟨no_cr_procReview raw, no_nl_procReview raw⟩,
   fun _ => ⟨fun h => truncReview_long h, fun h => truncReview_short h⟩⟩

/-- C9 counterexample: the emitted data row for a record whose category
holds a carriage return still holds that carriage return — cell escaping
collapses newlines and escapes pipes but does not touch carriage returns;
those are collapsed only in the review-text preprocessing. -/
theorem esc_cr_counterexample :
    TablePart.dataRow "| A\rB | ok | Unknown |  |" ∈
      append_details_table [rowCR] none 300 ∧
    '\r' ∈ "| A\rB | ok | Unknown |  |".data :=
  ⟨by decide, by decide⟩

/-- C9 witness: the escaping facts applied at concrete inputs — a newline
vanishes from an escaped cell, a short review is left untruncated, and a
300-character review is cut to 201 characters. -/
theorem esc_md_cell_spec_witness :
    '\n' ∉ (esc_md_cell "a\nb|c").data ∧
    procReview (some "short") = cleanReview (some "short") ∧
    (procReview (some longReview)).data.length = 201 :=
  ⟨(esc_md_cell_spec.1 "a\nb|c").1,
   (esc_md_cell_spec.2.2 (some "short")).2 (by decide),
   ((esc_md_cell_spec.2.2 (some longReview)).1 (by decide)).1⟩
